import Mathlib

/-!
# Verification of the raycasting core of Mightofthebeholder

Shallow embedding of the grid-map / raycaster / projector / visibility /
billboard code (src/unnamed/part_010, src/unnamed/part_002,
src/engine/entity.js) and proofs about it.

JavaScript numbers are modelled as exact rationals; the one non-finite value
the embedded code can produce, `Infinity`, is modelled by an explicit extended
type `XRat`.  Trigonometric results (`Math.cos`, `Math.sin`, `Math.atan2`,
`Math.sqrt`) are irrational in general, so functions that consume them take
the computed value as an explicit parameter standing for the source's call.
-/

set_option maxHeartbeats 1000000
set_option maxRecDepth 4000

namespace Beholder

/-- A JavaScript number as produced by the raycasting code: either a finite
value or `Infinity`.  No `NaN` constructor is needed: the only expression in
the embedded code that could produce `NaN` is `0 * Infinity`, and whenever an
infinite value is scaled the factor is positive (see `XRat.scale`). -/
inductive XRat where
  | fin (q : ℚ)
  | inf
  deriving DecidableEq, Repr

/-- JS addition on finite-or-`Infinity` values: `Infinity + x = Infinity`. -/
def XRat.add : XRat → XRat → XRat
  | .fin a, .fin b => .fin (a + b)
  | _, _ => .inf

/-- JS strict `<`: `Infinity < x` is false for every `x`; `x < Infinity` is
true for finite `x`. -/
def XRat.lt : XRat → XRat → Bool
  | .fin a, .fin b => decide (a < b)
  | .fin _, .inf => true
  | .inf, _ => false

/-- JS `<=` (used flipped for the source's `>=` comparisons):
`Infinity <= Infinity` is true, `Infinity <= x` is false for finite `x`. -/
def XRat.le : XRat → XRat → Bool
  | .fin a, .fin b => decide (a ≤ b)
  | .fin _, .inf => true
  | .inf, .fin _ => false
  | .inf, .inf => true

/-- Scaling an extended value by a finite factor, modelling JS `q * d`.
In the embedded code the factor `q` is positive whenever `d` is `Infinity`
(the fractional cell offsets multiplied against an infinite `deltaDist` are
in `(0, 1]`), so the JS `0 * Infinity = NaN` case never arises. -/
def XRat.scale (q : ℚ) : XRat → XRat
  | .fin a => .fin (q * a)
  | .inf => .inf

/-- JS division `a / b` where `b = 0` yields `Infinity` (the embedded code
only divides positive screen dimensions or `1` by its distances). -/
def jsDiv (a b : ℚ) : XRat :=
  if b = 0 then .inf else .fin (a / b)

/-- `Math.abs(1 / c)`: the per-axis distance increment of castRay
(src/unnamed/part_010 line 192); JS gives `Infinity` when `c` is `±0`. -/
def deltaDist (c : ℚ) : XRat :=
  if c = 0 then .inf else .fin |1 / c|

/-- Raw grid lookup `worldMap[y][x]`; the sources only perform it after an
explicit bounds check, so the `getD` defaults are never consulted there. -/
def cellAtRaw (m : List (List ℤ)) (x y : ℤ) : ℤ :=
  (m.getD y.toNat []).getD x.toNat 0

/-- Result of the DDA loop of castRay: the recorded distance, whether the
last advance crossed a vertical grid line, and the hit cell's code. -/
structure DDAHit where
  distance : XRat
  hitVertical : Bool
  tileType : ℤ
  deriving DecidableEq, Repr

/-- The `while (!hit)` DDA loop of castRay (src/unnamed/part_010 lines
201-225).  Each iteration advances along the axis with the smaller
accumulated side distance (ties go to the `else`, i.e. horizontal, branch),
records the pre-increment side distance as `distance`, then checks the
stepped-to cell: out of bounds yields the max-view-distance sentinel `50`
(with `tileType` left at its initial value `1`), a cell code `>= 1` yields a
hit with that code.  `fuel` bounds the number of iterations; `none` means the
bound was exhausted before a hit (the JS loop itself is unbounded). -/
def ddaLoop (w h : ℤ) (m : List (List ℤ)) (stepX stepY : ℤ) (dX dY : XRat) :
    ℕ → ℤ → ℤ → XRat → XRat → Option DDAHit
  | 0, _, _, _, _ => none
  | fuel + 1, mapX, mapY, sdX, sdY =>
    if sdX.lt sdY then
      let mapX' := mapX + stepX
      if mapX' < 0 ∨ mapY < 0 ∨ w ≤ mapX' ∨ h ≤ mapY then
        some ⟨.fin 50, true, 1⟩
      else if 1 ≤ cellAtRaw m mapX' mapY then
        some ⟨sdX, true, cellAtRaw m mapX' mapY⟩
      else
        ddaLoop w h m stepX stepY dX dY fuel mapX' mapY (sdX.add dX) sdY
    else
      let mapY' := mapY + stepY
      if mapX < 0 ∨ mapY' < 0 ∨ w ≤ mapX ∨ h ≤ mapY' then
        some ⟨.fin 50, false, 1⟩
      else if 1 ≤ cellAtRaw m mapX mapY' then
        some ⟨sdY, false, cellAtRaw m mapX mapY'⟩
      else
        ddaLoop w h m stepX stepY dX dY fuel mapX mapY' sdX (sdY.add dY)

/-- Full result of castRay (src/unnamed/part_010 lines 238-243).
`textureX = none` marks the branch where the recorded distance is `Infinity`,
in which JS arithmetic would produce `NaN`; it is unreachable for any
direction pair other than `(0, 0)`. -/
structure RayHit where
  distance : XRat
  hitVertical : Bool
  tileType : ℤ
  textureX : Option ℚ
  deriving DecidableEq, Repr

/-- castRay (src/unnamed/part_010 lines 189-244).  The source computes
`cos = Math.cos(angle)` and `sin = Math.sin(angle)`; those two values are the
parameters `c` and `s` here.  The globals `mapWidth`, `mapHeight`, `worldMap`
are the parameters `w`, `h`, `m`.  `fuel` bounds the unbounded JS loop. -/
def castRayFuel (fuel : ℕ) (w h : ℤ) (m : List (List ℤ)) (px py c s : ℚ) :
    Option RayHit :=
  let mapX : ℤ := ⌊px⌋
  let mapY : ℤ := ⌊py⌋
  let dX := deltaDist c
  let dY := deltaDist s
  let stepX : ℤ := if c < 0 then -1 else 1
  let stepY : ℤ := if s < 0 then -1 else 1
  let sdX := if c < 0 then XRat.scale (px - mapX) dX
             else XRat.scale ((mapX : ℚ) + 1 - px) dX
  let sdY := if s < 0 then XRat.scale (py - mapY) dY
             else XRat.scale ((mapY : ℚ) + 1 - py) dY
  (ddaLoop w h m stepX stepY dX dY fuel mapX mapY sdX sdY).map (fun hit =>
    { distance := hit.distance
      hitVertical := hit.hitVertical
      tileType := hit.tileType
      textureX :=
        match hit.distance with
        | .inf => none
        | .fin d =>
          let hitX := px + d * c
          let hitY := py + d * s
          let t0 : ℚ := if hit.hitVertical then hitY - ⌊hitY⌋ else hitX - ⌊hitX⌋
          let t1 : ℚ := if hit.hitVertical ∧ 0 < c then 1 - t0 else t0
          let t2 : ℚ := if (¬ hit.hitVertical) ∧ s < 0 then 1 - t1 else t1
          some t2 })

/-- The 1-cell ring test map: interior row of the 10 by 10 map whose border
is wall and whose interior is floor. -/
def ringRow : List ℤ := 1 :: (List.replicate 8 0 ++ [1])

/-- 10 by 10 map: a 1-cell-thick ring of walls surrounding an all-floor
interior. -/
def ring10 : List (List ℤ) :=
  List.replicate 10 (1 : ℤ) :: (List.replicate 8 ringRow ++ [List.replicate 10 (1 : ℤ)])

/-- A 150-wide, 1-tall corridor: all floor except a wall in the last cell. -/
def longMap : List (List ℤ) := [List.replicate 149 (0 : ℤ) ++ [1]]

/-- 5 by 5 map: a ring of walls with one extra wall cell at (3, 3), so that a
ray from (1.5, 1) in direction (3/5, 4/5) hits that wall exactly at the
lattice corner (3, 3). -/
def cornerMap : List (List ℤ) :=
  [[1, 1, 1, 1, 1],
   [1, 0, 0, 0, 1],
   [1, 0, 0, 0, 1],
   [1, 0, 0, 1, 1],
   [1, 1, 1, 1, 1]]

/-- canMoveTo (src/unnamed/part_010 lines 127-148).  The globals `worldMap`
and the entity manager's monster list are parameters; a monster is the
triple (active, x, y).  The source reads `worldMap[0].length` for the width
and `worldMap.length` for the height. -/
def canMoveTo (m : List (List ℤ)) (monsters : List (Bool × ℚ × ℚ)) (nx ny : ℚ) :
    Bool :=
  let tileX : ℤ := ⌊nx⌋
  let tileY : ℤ := ⌊ny⌋
  if tileX < 0 ∨ tileY < 0 ∨ ((m.headD []).length : ℤ) ≤ tileX ∨
      (m.length : ℤ) ≤ tileY then false
  else if cellAtRaw m tileX tileY ≠ 0 then false
  else if monsters.any (fun mo => mo.1 && (⌊mo.2.1⌋ == tileX) && (⌊mo.2.2⌋ == tileY))
    then false
  else true

/-- The ray angle for screen column `x`: `player.angle - fov/2 +
(x / screenW) * fov` (src/unnamed/part_010 line 249, and line 1088 in the
WebGL renderer). -/
def rayAngleAt (facing fov screenW x : ℚ) : ℚ :=
  facing - fov / 2 + (x / screenW) * fov

/-- The per-column geometry of draw3DView (src/unnamed/part_010 lines
250-253): from the column's ray distance and the fisheye factor
`Math.cos(rayAngle - player.angle)` (parameter `cosCorr`), the wall column
height `screenH / dist` and the column top `(screenH - lineH) / 2`.  There is
no guard on `dist`: JS produces `Infinity` for `lineH` when the corrected
distance is `0` (and then `-Infinity` for `lineTop`); both non-finite
outcomes are marked `.inf` here. -/
def draw3DColumn (screenH rayDist cosCorr : ℚ) : XRat × XRat :=
  let dist := rayDist * cosCorr
  match jsDiv screenH dist with
  | .inf => (.inf, .inf)
  | .fin v => (.fin v, .fin ((screenH - v) / 2))

/-- WebGLRenderer.renderRaycastedWalls wall height (src/unnamed/part_010
line 1097): `1.0 / (correctedDist === 0 ? 0.001 : correctedDist)`. -/
def wallHeightWebGL (correctedDist : ℚ) : ℚ :=
  1 / (if correctedDist = 0 then 1 / 1000 else correctedDist)

/-- The value of the JS constant `Math.PI`: the IEEE double closest to pi. -/
def piQ : ℚ := 884279719003555 / 281474976710656

/-- The loop `while (angleDiff > Math.PI) angleDiff -= 2 * Math.PI`
(src/engine/entity.js line 86), bounded by fuel. -/
def normDown : ℕ → ℚ → ℚ
  | 0, a => a
  | fuel + 1, a => if piQ < a then normDown fuel (a - 2 * piQ) else a

/-- The loop `while (angleDiff < -Math.PI) angleDiff += 2 * Math.PI`
(src/engine/entity.js line 87), bounded by fuel. -/
def normUp : ℕ → ℚ → ℚ
  | 0, a => a
  | fuel + 1, a => if a < -piQ then normUp fuel (a + 2 * piQ) else a

/-- The two sequential normalization while-loops of Entity.render
(src/engine/entity.js lines 85-87) and renderProjectile
(src/unnamed/part_002 lines 373-375). -/
def normalizeToPi (fuel : ℕ) (a : ℚ) : ℚ := normUp fuel (normDown fuel a)

/-- The screen-space quantities Entity.render computes for a drawn sprite
(src/engine/entity.js lines 99-110). -/
structure Projection where
  screenX : ℚ
  scale : XRat
  spriteHeight : XRat
  spriteWidth : XRat
  screenY : XRat
  deriving DecidableEq, Repr

/-- Outcome of the billboard path: the source signals "not drawn" by an
early `return`; `fuelOut` marks exhaustion of the fuel bounding the embedded
unbounded raycast loop. -/
inductive BillboardResult where
  | fuelOut
  | notDrawn
  | drawn (p : Projection)
  deriving DecidableEq, Repr

/-- The billboard path shared by Entity.render (src/engine/entity.js lines
70-110, occlusion epsilon 0.1) and renderProjectile (src/unnamed/part_002
lines 360-393, occlusion epsilon 0.3); the epsilon is the parameter `eps`.
`entAngle` stands for the source's `Math.atan2(dy, dx)` and `entDist` for
`Math.sqrt(dx*dx + dy*dy)`; the cosine/sine of `entAngle` passed to castRay
for the occlusion check are the parameters `c` and `s`.  The sprite size
products `height * scale * screenH * 0.5` are scalings of the possibly
infinite `scale`; the finite factors are applied by `XRat.scale` (equal
value, reassociated). -/
def renderBillboard (nfuel rfuel : ℕ) (w h : ℤ) (m : List (List ℤ))
    (playerX playerY playerAngle fov screenW screenH : ℚ)
    (visible : Bool) (entAngle entDist entW entH c s eps : ℚ) :
    BillboardResult :=
  if !visible then .notDrawn
  else
    let angleDiff := normalizeToPi nfuel (entAngle - playerAngle)
    if fov / 2 < |angleDiff| then .notDrawn
    else
      match castRayFuel rfuel w h m playerX playerY c s with
      | none => .fuelOut
      | some ray =>
        if ray.distance.lt (.fin (entDist - eps)) then .notDrawn
        else
          let screenX := screenW / 2 + (angleDiff / (fov / 2)) * (screenW / 2)
          let scale := jsDiv 1 entDist
          let spriteHeight := XRat.scale (1/2) (XRat.scale screenH (XRat.scale entH scale))
          let spriteWidth := XRat.scale (1/2) (XRat.scale screenH (XRat.scale entW scale))
          let screenY :=
            match spriteHeight with
            | .inf => XRat.inf
            | .fin v => XRat.fin (screenH / 2 - v / 2)
          .drawn ⟨screenX, scale, spriteHeight, spriteWidth, screenY⟩

/-- Entity.isInLineOfSight (src/engine/entity.js lines 62-67): `dist` stands
for `this.distanceTo(entity)` and `c`, `s` for the cosine/sine of
`this.angleTo(entity)`.  Returns `ray.distance >= dist`; `none` if the fuel
bounding the embedded raycast loop ran out. -/
def isInLineOfSight (rfuel : ℕ) (w h : ℤ) (m : List (List ℤ))
    (x y dist c s : ℚ) : Option Bool :=
  (castRayFuel rfuel w h m x y c s).map (fun ray => (XRat.fin dist).le ray.distance)

/-! ### Spec-side model of the DDA loop (for the refinement claim)

The definitions below follow the words of spec sections 4.1-4.2, to be
compared with the source-side `ddaLoop`/`castRayFuel` above. -/

/-- Which grid-line family a DDA advance crossed (spec section 3 `hitSide`). -/
inductive Axis where
  | vertical
  | horizontal
  deriving DecidableEq, Repr

/-- Modelled from the spec, section 4.2 step 6: advance along whichever axis
has the smaller accumulated side distance, the tie broken deterministically
in favour of the horizontal grid-line family. -/
def chooseAxis (sdX sdY : XRat) : Axis :=
  if sdY.le sdX then .horizontal else .vertical

/-- Modelled from the spec, section 4.1: total cell lookup, WALL (1) for any
out-of-range coordinate pair. -/
def cellAt (w h : ℤ) (m : List (List ℤ)) (x y : ℤ) : ℤ :=
  if x < 0 ∨ y < 0 ∨ w ≤ x ∨ h ≤ y then 1 else cellAtRaw m x y

/-- Modelled from the spec, section 4.2 step 7: the max-ray-distance
sentinel returned on leaving the map (the source's constant 50). -/
def maxRayDistance : ℚ := 50

/-- A hit as the spec describes it: distance, which axis advanced last, and
the hit cell's code. -/
structure SpecHit where
  distance : XRat
  hitSide : Axis
  cellCode : ℤ
  deriving DecidableEq, Repr

/-- Modelled from the spec, section 4.2 steps 6-8: pick the axis with the
smaller side distance, advance that axis's map coordinate by its step and
its side distance by its delta, record which axis advanced; stop with the
max-distance sentinel when the stepped-to cell is out of bounds, or with the
pre-increment side distance and the cell's code when `cellAt` is not FLOOR. -/
def ddaLoopSpec (w h : ℤ) (m : List (List ℤ)) (stepX stepY : ℤ) (dX dY : XRat) :
    ℕ → ℤ → ℤ → XRat → XRat → Option SpecHit
  | 0, _, _, _, _ => none
  | fuel + 1, mapX, mapY, sdX, sdY =>
    match chooseAxis sdX sdY with
    | .vertical =>
      let x' := mapX + stepX
      if x' < 0 ∨ mapY < 0 ∨ w ≤ x' ∨ h ≤ mapY then
        some ⟨.fin maxRayDistance, .vertical, cellAt w h m x' mapY⟩
      else if cellAt w h m x' mapY ≠ 0 then
        some ⟨sdX, .vertical, cellAt w h m x' mapY⟩
      else
        ddaLoopSpec w h m stepX stepY dX dY fuel x' mapY (sdX.add dX) sdY
    | .horizontal =>
      let y' := mapY + stepY
      if mapX < 0 ∨ y' < 0 ∨ w ≤ mapX ∨ h ≤ y' then
        some ⟨.fin maxRayDistance, .horizontal, cellAt w h m mapX y'⟩
      else if cellAt w h m mapX y' ≠ 0 then
        some ⟨sdY, .horizontal, cellAt w h m mapX y'⟩
      else
        ddaLoopSpec w h m stepX stepY dX dY fuel mapX y' sdX (sdY.add dY)

/-- The spec's `cast`, section 4.2 steps 1-8 (step 9, the texture fraction,
is compared separately): steps 1-5 are the same arithmetic the source uses,
the loop is `ddaLoopSpec`. -/
def castRaySpecFuel (fuel : ℕ) (w h : ℤ) (m : List (List ℤ)) (px py c s : ℚ) :
    Option SpecHit :=
  let mapX : ℤ := ⌊px⌋
  let mapY : ℤ := ⌊py⌋
  let dX := deltaDist c
  let dY := deltaDist s
  let stepX : ℤ := if c < 0 then -1 else 1
  let stepY : ℤ := if s < 0 then -1 else 1
  let sdX := if c < 0 then XRat.scale (px - mapX) dX
             else XRat.scale ((mapX : ℚ) + 1 - px) dX
  let sdY := if s < 0 then XRat.scale (py - mapY) dY
             else XRat.scale ((mapY : ℚ) + 1 - py) dY
  ddaLoopSpec w h m stepX stepY dX dY fuel mapX mapY sdX sdY

/-- The axis encoding used when comparing the spec-side result with the
source's `hitVertical` boolean. -/
def axisOfBool (b : Bool) : Axis := if b then .vertical else .horizontal

/-- A well-formed grid in the sense of the spec's data model: every stored
cell code is FLOOR (0), WALL (1) or EXIT (2). -/
def WellFormedCells (m : List (List ℤ)) : Prop :=
  ∀ row ∈ m, ∀ c ∈ row, c = 0 ∨ c = 1 ∨ c = 2

/-! ### Helper lemmas -/

theorem XRat.lt_self (a : XRat) : a.lt a = false := by
  cases a <;> simp [XRat.lt]

theorem XRat.le_eq_not_lt : ∀ a b : XRat, a.le b = !(b.lt a)
  | .fin a, .fin b => by
    simp only [XRat.le, XRat.lt]
    rw [decide_eq_decide.mpr not_lt.symm, decide_not]
  | .fin _, .inf => rfl
  | .inf, .fin _ => rfl
  | .inf, .inf => rfl

theorem chooseAxis_of_lt {sdX sdY : XRat} (h : sdX.lt sdY = true) :
    chooseAxis sdX sdY = .vertical := by
  simp [chooseAxis, XRat.le_eq_not_lt, h]

theorem chooseAxis_of_not_lt {sdX sdY : XRat} (h : sdX.lt sdY = false) :
    chooseAxis sdX sdY = .horizontal := by
  simp [chooseAxis, XRat.le_eq_not_lt, h]

theorem cellAtRaw_cases (m : List (List ℤ)) (hm : WellFormedCells m) (x y : ℤ) :
    cellAtRaw m x y = 0 ∨ cellAtRaw m x y = 1 ∨ cellAtRaw m x y = 2 := by
  unfold cellAtRaw
  by_cases hy : y.toNat < m.length
  · rw [List.getD_eq_getElem _ _ hy]
    have hrow : m[y.toNat] ∈ m := List.getElem_mem hy
    by_cases hx : x.toNat < m[y.toNat].length
    · rw [List.getD_eq_getElem _ _ hx]
      exact hm _ hrow _ (List.getElem_mem hx)
    · rw [List.getD_eq_default _ _ (Nat.le_of_not_lt hx)]
      exact Or.inl rfl
  · rw [List.getD_eq_default _ _ (Nat.le_of_not_lt hy)]
    simp

theorem cellAt_of_inbounds {w h x y : ℤ} (m : List (List ℤ))
    (hin : ¬(x < 0 ∨ y < 0 ∨ w ≤ x ∨ h ≤ y)) :
    cellAt w h m x y = cellAtRaw m x y := by
  simp [cellAt, hin]

/-- Under a well-formed grid, the spec-side DDA loop computes exactly what
the source's loop computes (distance, hit axis, cell code). -/
theorem ddaLoopSpec_eq_ddaLoop (w h : ℤ) (m : List (List ℤ))
    (hm : WellFormedCells m) (stepX stepY : ℤ) (dX dY : XRat) (fuel : ℕ) :
    ∀ (mapX mapY : ℤ) (sdX sdY : XRat),
      ddaLoopSpec w h m stepX stepY dX dY fuel mapX mapY sdX sdY =
        (ddaLoop w h m stepX stepY dX dY fuel mapX mapY sdX sdY).map
          (fun r => ⟨r.distance, axisOfBool r.hitVertical, r.tileType⟩) := by
  induction fuel with
  | zero => intro mapX mapY sdX sdY; rfl
  | succ fuel ih =>
    intro mapX mapY sdX sdY
    simp only [ddaLoopSpec, ddaLoop]
    cases hlt : sdX.lt sdY
    · rw [chooseAxis_of_not_lt hlt]
      simp only [hlt, Bool.false_eq_true, if_false]
      by_cases hoob : mapX < 0 ∨ mapY + stepY < 0 ∨ w ≤ mapX ∨ h ≤ mapY + stepY
      · simp [hoob, cellAt, axisOfBool, maxRayDistance]
      · rw [if_neg hoob, if_neg hoob, cellAt_of_inbounds m hoob]
        rcases cellAtRaw_cases m hm mapX (mapY + stepY) with hc | hc | hc
        · simp [hc, ih]
        · simp [hc, axisOfBool]
        · simp [hc, axisOfBool]
    · rw [chooseAxis_of_lt hlt]
      simp only [hlt, if_true]
      by_cases hoob : mapX + stepX < 0 ∨ mapY < 0 ∨ w ≤ mapX + stepX ∨ h ≤ mapY
      · simp [hoob, cellAt, axisOfBool, maxRayDistance]
      · rw [if_neg hoob, if_neg hoob, cellAt_of_inbounds m hoob]
        rcases cellAtRaw_cases m hm (mapX + stepX) mapY with hc | hc | hc
        · simp [hc, ih]
        · simp [hc, axisOfBool]
        · simp [hc, axisOfBool]

/-! ### Claim theorems -/

/-- C1: for every origin, direction and well-formed grid, castRay performs
the DDA loop exactly as the spec describes it: each iteration advances along
the axis with the smaller accumulated side distance, steps that axis's map
coordinate, adds that axis's delta to its side distance and records the axis
as the hit side; on hitting the first non-FLOOR cell the returned distance
is the side distance from before that iteration's increment and the returned
cell code is the hit cell's code.  Formally: the spec-side model
`castRaySpecFuel` (written from the spec's words, with the total `cellAt`)
agrees with the source-side `castRayFuel` at every fuel value. -/
theorem c1_castRay_refines_spec (fuel : ℕ) (w h : ℤ) (m : List (List ℤ))
    (px py c s : ℚ) (hm : WellFormedCells m) :
    castRaySpecFuel fuel w h m px py c s =
      (castRayFuel fuel w h m px py c s).map
        (fun r => ⟨r.distance, axisOfBool r.hitVertical, r.tileType⟩) := by
  simp only [castRaySpecFuel, castRayFuel]
  rw [ddaLoopSpec_eq_ddaLoop w h m hm]
  rw [Option.map_map]
  rfl

/-- Witness for C1 at a concrete well-formed map and input. -/
theorem c1_castRay_refines_spec_witness :
    WellFormedCells ring10 ∧
      castRaySpecFuel 100 10 10 ring10 (3/2) (3/2) 1 0 =
        (castRayFuel 100 10 10 ring10 (3/2) (3/2) 1 0).map
          (fun r => ⟨r.distance, axisOfBool r.hitVertical, r.tileType⟩) :=
  ⟨by unfold WellFormedCells; with_unfolding_all decide,
   c1_castRay_refines_spec 100 10 10 ring10 (3/2) (3/2) 1 0
     (by unfold WellFormedCells; with_unfolding_all decide)⟩

/-- C10: whenever the accumulated side distances are exactly equal, the DDA
loop advances along the Y axis (the horizontal grid-line family) and records
`hitVertical = false`: the iteration is literally the Y-branch of the loop
body, for every input. -/
theorem c10_tie_advances_horizontal (w h : ℤ) (m : List (List ℤ))
    (stepX stepY : ℤ) (dX dY : XRat) (fuel : ℕ) (mapX mapY : ℤ) (sd : XRat) :
    ddaLoop w h m stepX stepY dX dY (fuel + 1) mapX mapY sd sd =
      (if mapX < 0 ∨ mapY + stepY < 0 ∨ w ≤ mapX ∨ h ≤ mapY + stepY then
        some ⟨.fin 50, false, 1⟩
      else if 1 ≤ cellAtRaw m mapX (mapY + stepY) then
        some ⟨sd, false, cellAtRaw m mapX (mapY + stepY)⟩
      else
        ddaLoop w h m stepX stepY dX dY fuel mapX (mapY + stepY) sd
          (sd.add dY)) := by
  simp [ddaLoop, XRat.lt_self]

/-- C3 counterexample: in the 10 by 10 ring map, the ray cast due east from
(1.5, 1.5) hits at distance 7.5, not the claimed 8.5. -/
theorem c3_counterexample :
    castRayFuel 100 10 10 ring10 (3/2) (3/2) 1 0 =
      some ⟨.fin (15/2), true, 1, some (1/2)⟩ ∧
    XRat.fin (15/2) ≠ XRat.fin (17/2) := by
  constructor
  · with_unfolding_all decide
  · with_unfolding_all decide

/-- C3 amended: in the 10 by 10 ring map, the ray cast due east from
(1.5, 1.5) returns distance 7.5 (the east wall cell starts at x = 9, so the
crossing is 9 - 1.5 = 7.5 away) with a vertical hit side. -/
theorem c3_ring_cast_east :
    (castRayFuel 100 10 10 ring10 (3/2) (3/2) 1 0).map
        (fun r => (r.distance, r.hitVertical)) =
      some (.fin (15/2), true) := by
  with_unfolding_all decide

/-! ### Termination of the uncapped DDA loop -/

/-- How many advances one axis can make before its map coordinate leaves
`[0, limit)`, given that axis's fixed step direction. -/
def stepBound (limit coord step : ℤ) : ℕ :=
  if step = 1 then (limit - coord).toNat else (coord + 1).toNat

theorem ddaLoop_isSome (w h : ℤ) (m : List (List ℤ)) (stepX stepY : ℤ)
    (dX dY : XRat) (hsx : stepX = 1 ∨ stepX = -1) (hsy : stepY = 1 ∨ stepY = -1)
    (fuel : ℕ) :
    ∀ (mapX mapY : ℤ) (sdX sdY : XRat),
      stepBound w mapX stepX + stepBound h mapY stepY + 1 ≤ fuel →
      (ddaLoop w h m stepX stepY dX dY fuel mapX mapY sdX sdY).isSome = true := by
  induction fuel with
  | zero => intro mapX mapY sdX sdY hb; omega
  | succ fuel ih =>
    intro mapX mapY sdX sdY hb
    simp only [ddaLoop]
    cases hlt : sdX.lt sdY
    · simp only [Bool.false_eq_true, if_false]
      by_cases hoob : mapX < 0 ∨ mapY + stepY < 0 ∨ w ≤ mapX ∨ h ≤ mapY + stepY
      · simp [hoob]
      · rw [if_neg hoob]
        by_cases hcell : 1 ≤ cellAtRaw m mapX (mapY + stepY)
        · simp [hcell]
        · rw [if_neg hcell]
          apply ih
          push_neg at hoob
          rcases hsy with rfl | rfl <;> simp [stepBound] at hb ⊢ <;> omega
    · simp only [if_true]
      by_cases hoob : mapX + stepX < 0 ∨ mapY < 0 ∨ w ≤ mapX + stepX ∨ h ≤ mapY
      · simp [hoob]
      · rw [if_neg hoob]
        by_cases hcell : 1 ≤ cellAtRaw m (mapX + stepX) mapY
        · simp [hcell]
        · rw [if_neg hcell]
          apply ih
          push_neg at hoob
          rcases hsx with rfl | rfl <;> simp [stepBound] at hb ⊢ <;> omega

/-- C2 amended: castRay's DDA loop has no iteration cap, but it terminates
for every origin whose starting cell is inside the map and every direction:
`width + height + 1` iterations always suffice, because each iteration
advances one map coordinate by its fixed step of 1 or -1 until the
out-of-bounds check fires if no wall was hit first. -/
theorem c2_castRay_terminates (fuel : ℕ) (w h : ℤ) (m : List (List ℤ))
    (px py c s : ℚ) (hx0 : 0 ≤ ⌊px⌋) (hxw : ⌊px⌋ < w) (hy0 : 0 ≤ ⌊py⌋)
    (hyh : ⌊py⌋ < h) (hfuel : w.toNat + h.toNat + 1 ≤ fuel) :
    (castRayFuel fuel w h m px py c s).isSome = true := by
  have hb1 : stepBound w ⌊px⌋ (if c < 0 then (-1 : ℤ) else 1) ≤ w.toNat := by
    split <;> simp [stepBound] <;> omega
  have hb2 : stepBound h ⌊py⌋ (if s < 0 then (-1 : ℤ) else 1) ≤ h.toNat := by
    split <;> simp [stepBound] <;> omega
  have h1 := ddaLoop_isSome w h m (if c < 0 then (-1 : ℤ) else 1)
    (if s < 0 then (-1 : ℤ) else 1) (deltaDist c) (deltaDist s)
    (by split <;> simp) (by split <;> simp) fuel ⌊px⌋ ⌊py⌋
    (if c < 0 then XRat.scale (px - ⌊px⌋) (deltaDist c)
      else XRat.scale ((⌊px⌋ : ℚ) + 1 - px) (deltaDist c))
    (if s < 0 then XRat.scale (py - ⌊py⌋) (deltaDist s)
      else XRat.scale ((⌊py⌋ : ℚ) + 1 - py) (deltaDist s))
    (by omega)
  obtain ⟨r, hr⟩ := Option.isSome_iff_exists.mp h1
  simp only [castRayFuel, hr, Option.map_some', Option.isSome_some]

/-- Witness for C2's amended theorem: in the 10 by 10 ring map,
10 + 10 + 1 = 21 iterations suffice from (1.5, 1.5). -/
theorem c2_castRay_terminates_witness :
    (castRayFuel 21 10 10 ring10 (3/2) (3/2) 1 0).isSome = true :=
  c2_castRay_terminates 21 10 10 ring10 (3/2) (3/2) 1 0
    (by with_unfolding_all decide) (by with_unfolding_all decide)
    (by with_unfolding_all decide) (by with_unfolding_all decide)
    (by with_unfolding_all decide)

/-- C2 counterexample: castRay does not cap its iteration count at 100 (or
anywhere): in a 150-cell-long corridor the eastward ray from (1.5, 0.5) has
made no hit after 100 iterations, and completing the walk (fuel 200) returns
a wall hit at distance 147.5 - not a no-hit result at the max ray distance
50. -/
theorem c2_counterexample :
    castRayFuel 100 150 1 longMap (3/2) (1/2) 1 0 = none ∧
    castRayFuel 200 150 1 longMap (3/2) (1/2) 1 0 =
      some ⟨.fin (295/2), true, 1, some (1/2)⟩ ∧
    XRat.fin (295/2) ≠ XRat.fin 50 := by
  refine ⟨?_, ?_, ?_⟩
  · with_unfolding_all decide
  · with_unfolding_all decide
  · with_unfolding_all decide

/-! ### Nonnegativity of the recorded distance -/

/-- Nonnegative extended values (`Infinity` counts as nonnegative). -/
def XRat.NN : XRat → Prop
  | .fin q => 0 ≤ q
  | .inf => True

theorem XRat.add_NN : ∀ {a b : XRat}, a.NN → b.NN → (a.add b).NN
  | .fin _, .fin _, ha, hb => add_nonneg ha hb
  | .fin _, .inf, _, _ => trivial
  | .inf, .fin _, _, _ => trivial
  | .inf, .inf, _, _ => trivial

theorem XRat.scale_NN {q : ℚ} (hq : 0 ≤ q) : ∀ {d : XRat}, d.NN → (XRat.scale q d).NN
  | .fin _, ha => mul_nonneg hq ha
  | .inf, _ => trivial

theorem deltaDist_NN (c : ℚ) : (deltaDist c).NN := by
  unfold deltaDist
  split
  · trivial
  · exact abs_nonneg _

theorem XRat.zero_le_of_NN : ∀ {d : XRat}, d.NN → (XRat.fin 0).le d = true
  | .fin _, h => by simpa [XRat.le] using h
  | .inf, _ => rfl

theorem ddaLoop_distance_NN (w h : ℤ) (m : List (List ℤ)) (stepX stepY : ℤ)
    (dX dY : XRat) (hdX : dX.NN) (hdY : dY.NN) (fuel : ℕ) :
    ∀ (mapX mapY : ℤ) (sdX sdY : XRat), sdX.NN → sdY.NN →
      ∀ r, ddaLoop w h m stepX stepY dX dY fuel mapX mapY sdX sdY = some r →
        r.distance.NN := by
  induction fuel with
  | zero => intro _ _ _ _ _ _ r hr; exact absurd hr (by simp [ddaLoop])
  | succ fuel ih =>
    intro mapX mapY sdX sdY hx hy r hr
    simp only [ddaLoop] at hr
    cases hlt : sdX.lt sdY <;> simp only [hlt, Bool.false_eq_true, if_false, if_true] at hr
    · split at hr
      · cases hr
        norm_num [XRat.NN]
      · split at hr
        · cases hr
          exact hy
        · exact ih mapX (mapY + stepY) sdX (sdY.add dY) hx (XRat.add_NN hy hdY) r hr
    · split at hr
      · cases hr
        norm_num [XRat.NN]
      · split at hr
        · cases hr
          exact hx
        · exact ih (mapX + stepX) mapY (sdX.add dX) sdY (XRat.add_NN hx hdX) hy r hr

theorem castRayFuel_distance_NN (fuel : ℕ) (w h : ℤ) (m : List (List ℤ))
    (px py c s : ℚ) (r : RayHit) (hr : castRayFuel fuel w h m px py c s = some r) :
    r.distance.NN := by
  simp only [castRayFuel] at hr
  rcases Option.map_eq_some'.mp hr with ⟨hit, hhit, hmap⟩
  have hsx : XRat.NN (if c < 0 then XRat.scale (px - ⌊px⌋) (deltaDist c)
      else XRat.scale ((⌊px⌋ : ℚ) + 1 - px) (deltaDist c)) := by
    split
    · exact XRat.scale_NN (sub_nonneg.mpr (Int.floor_le px)) (deltaDist_NN c)
    · exact XRat.scale_NN (by have := Int.lt_floor_add_one px; linarith) (deltaDist_NN c)
  have hsy : XRat.NN (if s < 0 then XRat.scale (py - ⌊py⌋) (deltaDist s)
      else XRat.scale ((⌊py⌋ : ℚ) + 1 - py) (deltaDist s)) := by
    split
    · exact XRat.scale_NN (sub_nonneg.mpr (Int.floor_le py)) (deltaDist_NN s)
    · exact XRat.scale_NN (by have := Int.lt_floor_add_one py; linarith) (deltaDist_NN s)
  have hNN := ddaLoop_distance_NN w h m (if c < 0 then -1 else 1)
    (if s < 0 then -1 else 1) (deltaDist c) (deltaDist s)
    (deltaDist_NN c) (deltaDist_NN s) fuel ⌊px⌋ ⌊py⌋ _ _ hsx hsy hit hhit
  rw [← hmap]
  exact hNN

/-- C6: the visibility query returns `ray.distance >= straightDistance`
verbatim (first conjunct), and is therefore true at distance zero for any
point, wall or not, since the recorded ray distance is always nonnegative
(second conjunct: self-visibility). -/
theorem c6_visibility (rfuel : ℕ) (w h : ℤ) (m : List (List ℤ))
    (x y dist c s : ℚ) (ray : RayHit)
    (hray : castRayFuel rfuel w h m x y c s = some ray) :
    isInLineOfSight rfuel w h m x y dist c s =
      some ((XRat.fin dist).le ray.distance) ∧
    (dist = 0 → isInLineOfSight rfuel w h m x y dist c s = some true) := by
  have hNN := castRayFuel_distance_NN rfuel w h m x y c s ray hray
  constructor
  · simp [isInLineOfSight, hray]
  · rintro rfl
    simp [isInLineOfSight, hray, XRat.zero_le_of_NN hNN]

/-- Witness for C6: self-visibility at (1.5, 1.5) in the ring map. -/
theorem c6_visibility_witness :
    isInLineOfSight 100 10 10 ring10 (3/2) (3/2) 0 1 0 = some true :=
  (c6_visibility 100 10 10 ring10 (3/2) (3/2) 0 1 0
    ⟨.fin (15/2), true, 1, some (1/2)⟩ (by with_unfolding_all decide)).2 rfl

/-! ### Finiteness of the recorded distance -/

theorem XRat.ne_inf_of_lt {a b : XRat} (h : a.lt b = true) : a ≠ .inf := by
  intro hcon
  subst hcon
  simp [XRat.lt] at h

theorem XRat.ne_inf_of_not_lt {a b : XRat} (ha : a ≠ .inf) (h : a.lt b = false) :
    b ≠ .inf := by
  intro hcon
  subst hcon
  cases a with
  | fin q => simp [XRat.lt] at h
  | inf => exact ha rfl

theorem XRat.add_ne_inf : ∀ {a b : XRat}, a ≠ .inf → b ≠ .inf → a.add b ≠ .inf
  | .fin _, .fin _, _, _ => by simp [XRat.add]
  | .fin _, .inf, _, hb => absurd rfl hb
  | .inf, _, ha, _ => absurd rfl ha

theorem XRat.scale_ne_inf {q : ℚ} : ∀ {d : XRat}, d ≠ .inf → XRat.scale q d ≠ .inf
  | .fin _, _ => by simp [XRat.scale]
  | .inf, hd => absurd rfl hd

theorem deltaDist_ne_inf {c : ℚ} (hc : c ≠ 0) : deltaDist c ≠ .inf := by
  simp [deltaDist, hc]

theorem ddaLoop_distance_finite (w h : ℤ) (m : List (List ℤ)) (stepX stepY : ℤ)
    (dX dY : XRat) (fuel : ℕ) :
    ∀ (mapX mapY : ℤ) (sdX sdY : XRat),
      ((dX ≠ .inf ∧ sdX ≠ .inf) ∨ (dY ≠ .inf ∧ sdY ≠ .inf)) →
      ∀ r, ddaLoop w h m stepX stepY dX dY fuel mapX mapY sdX sdY = some r →
        r.distance ≠ .inf := by
  induction fuel with
  | zero => intro _ _ _ _ _ r hr; exact absurd hr (by simp [ddaLoop])
  | succ fuel ih =>
    intro mapX mapY sdX sdY hinv r hr
    simp only [ddaLoop] at hr
    cases hlt : sdX.lt sdY <;> simp only [hlt, Bool.false_eq_true, if_false, if_true] at hr
    · split at hr
      · cases hr; simp
      · split at hr
        · cases hr
          rcases hinv with ⟨_, hsdX⟩ | ⟨_, hsdY⟩
          · exact XRat.ne_inf_of_not_lt hsdX hlt
          · exact hsdY
        · refine ih mapX (mapY + stepY) sdX (sdY.add dY) ?_ r hr
          rcases hinv with ⟨hdX, hsdX⟩ | ⟨hdY, hsdY⟩
          · exact Or.inl ⟨hdX, hsdX⟩
          · exact Or.inr ⟨hdY, XRat.add_ne_inf hsdY hdY⟩
    · split at hr
      · cases hr; simp
      · split at hr
        · cases hr
          exact XRat.ne_inf_of_lt hlt
        · refine ih (mapX + stepX) mapY (sdX.add dX) sdY ?_ r hr
          rcases hinv with ⟨hdX, hsdX⟩ | ⟨hdY, hsdY⟩
          · exact Or.inl ⟨hdX, XRat.add_ne_inf hsdX hdX⟩
          · exact Or.inr ⟨hdY, hsdY⟩

/-- C9 amended: castRay never throws (it is a total function here) and, for
every direction pair other than the unrealizable (0, 0) - in particular for
axis-aligned rays and for origins exactly on a grid line - returns a finite
distance and a defined texture fraction: no NaN or Infinity reaches its
output. -/
theorem c9_castRay_finite_outputs (fuel : ℕ) (w h : ℤ) (m : List (List ℤ))
    (px py c s : ℚ) (r : RayHit) (hcs : ¬(c = 0 ∧ s = 0))
    (hr : castRayFuel fuel w h m px py c s = some r) :
    r.distance ≠ .inf ∧ r.textureX.isSome = true := by
  simp only [castRayFuel] at hr
  rcases Option.map_eq_some'.mp hr with ⟨hit, hhit, hmap⟩
  have hfin : hit.distance ≠ .inf := by
    refine ddaLoop_distance_finite w h m _ _ _ _ fuel ⌊px⌋ ⌊py⌋ _ _ ?_ hit hhit
    rcases not_and_or.mp hcs with hc | hs
    · refine Or.inl ⟨deltaDist_ne_inf hc, ?_⟩
      split <;> exact XRat.scale_ne_inf (deltaDist_ne_inf hc)
    · refine Or.inr ⟨deltaDist_ne_inf hs, ?_⟩
      split <;> exact XRat.scale_ne_inf (deltaDist_ne_inf hs)
  subst hmap
  refine ⟨hfin, ?_⟩
  cases hd : hit.distance with
  | fin d => simp [hd]
  | inf => exact absurd hd hfin

/-- Witness for C9's amended theorem: the axis-aligned westward ray from the
grid-line point (1, 1.5) in the ring map (it hits at distance 0). -/
theorem c9_castRay_finite_outputs_witness :
    (⟨XRat.fin 0, true, 1, some (1/2)⟩ : RayHit).distance ≠ .inf ∧
    (⟨XRat.fin 0, true, 1, some (1/2)⟩ : RayHit).textureX.isSome = true :=
  c9_castRay_finite_outputs 100 10 10 ring10 1 (3/2) (-1) 0
    ⟨XRat.fin 0, true, 1, some (1/2)⟩ (by norm_num)
    (by with_unfolding_all decide)

/-- C9 counterexample: the billboard path does propagate Infinity into its
outputs: an entity at the viewer's exact position (distance 0, in view,
unoccluded) is drawn with scale = 1/0 = Infinity and infinite sprite
dimensions - nothing caps them at the max render distance. -/
theorem c9_counterexample :
    renderBillboard 10 100 10 10 ring10 (3/2) (3/2) 0 1 100 100 true 0 0 1 1 1 0
        (1/10) =
      .drawn ⟨50, .inf, .inf, .inf, .inf⟩ := by
  with_unfolding_all decide

/-- C4 amended: the projector's per-column formulas are as claimed
(rayAngle, fisheye-corrected distance, columnHeight = screenH / dist,
columnTop = (screenH - columnHeight) / 2) whenever the corrected distance is
nonzero, but nothing clamps the corrected distance to a positive epsilon: the
canvas path divides by it unguarded, and the WebGL path substitutes 0.001
only when it is exactly zero (shown by its value 1000 at zero). -/
theorem c4_projector_formulas (screenH rayDist cosCorr facing fov screenW x : ℚ)
    (hd : rayDist * cosCorr ≠ 0) :
    draw3DColumn screenH rayDist cosCorr =
      (.fin (screenH / (rayDist * cosCorr)),
       .fin ((screenH - screenH / (rayDist * cosCorr)) / 2)) ∧
    rayAngleAt facing fov screenW x = facing - fov / 2 + (x / screenW) * fov ∧
    wallHeightWebGL 0 = 1000 := by
  refine ⟨?_, rfl, by norm_num [wallHeightWebGL]⟩
  simp [draw3DColumn, jsDiv, hd]

/-- Witness for C4's amended theorem at the ring-map hit distance 7.5. -/
theorem c4_projector_formulas_witness :
    draw3DColumn 100 (15/2) 1 =
      (.fin (100 / ((15/2) * 1)), .fin ((100 - 100 / ((15/2) * 1)) / 2)) ∧
    rayAngleAt 0 1 100 50 = 0 - 1 / 2 + (50 / 100) * 1 ∧
    wallHeightWebGL 0 = 1000 :=
  c4_projector_formulas 100 (15/2) 1 0 1 100 50 (by norm_num)

/-- C4 counterexample: a zero ray distance is reachable (westward ray from
the grid-line point (1, 1.5) hits the ring wall at distance 0), and the
canvas column computation then divides by zero: the column height is
Infinity, not a value guarded by an epsilon clamp. -/
theorem c4_counterexample :
    castRayFuel 100 10 10 ring10 1 (3/2) (-1) 0 =
      some ⟨.fin 0, true, 1, some (1/2)⟩ ∧
    draw3DColumn 100 0 1 = (.inf, .inf) := by
  constructor
  · with_unfolding_all decide
  · with_unfolding_all decide

/-- C5 amended: the texture fraction is always in the closed interval
[0, 1]: the raw fractional part is in [0, 1), and the mirroring correction
1 - t can reach exactly 1 when the hit point lies on a lattice corner. -/
theorem c5_textureX_in_unit (fuel : ℕ) (w h : ℤ) (m : List (List ℤ))
    (px py c s : ℚ) (r : RayHit) (t : ℚ)
    (hr : castRayFuel fuel w h m px py c s = some r)
    (ht : r.textureX = some t) : 0 ≤ t ∧ t ≤ 1 := by
  simp only [castRayFuel] at hr
  rcases Option.map_eq_some'.mp hr with ⟨hit, hhit, hmap⟩
  subst hmap
  simp only [] at ht
  cases hd : hit.distance with
  | inf => rw [hd] at ht; cases ht
  | fin d =>
    rw [hd] at ht
    simp only [Option.some.injEq] at ht
    subst ht
    have hY1 : (0 : ℚ) ≤ (py + d * s) - ⌊(py + d * s)⌋ := by
      linarith [Int.floor_le (py + d * s)]
    have hY2 : (py + d * s) - ⌊(py + d * s)⌋ < 1 := by
      linarith [Int.lt_floor_add_one (py + d * s)]
    have hX1 : (0 : ℚ) ≤ (px + d * c) - ⌊(px + d * c)⌋ := by
      linarith [Int.floor_le (px + d * c)]
    have hX2 : (px + d * c) - ⌊(px + d * c)⌋ < 1 := by
      linarith [Int.lt_floor_add_one (px + d * c)]
    split_ifs <;> constructor <;> linarith

/-- Witness for C5's amended theorem: the ring-map eastward cast, whose
texture fraction is 1/2. -/
theorem c5_textureX_in_unit_witness : (0 : ℚ) ≤ 1/2 ∧ (1/2 : ℚ) ≤ 1 :=
  c5_textureX_in_unit 100 10 10 ring10 (3/2) (3/2) 1 0
    ⟨.fin (15/2), true, 1, some (1/2)⟩ (1/2)
    (by with_unfolding_all decide) rfl

/-- C5 counterexample: a ray aimed exactly at a lattice corner yields, after
the mirroring correction, a texture fraction of exactly 1, which is not in
the half-open interval [0, 1). -/
theorem c5_counterexample :
    castRayFuel 20 5 5 cornerMap (3/2) 1 (3/5) (4/5) =
      some ⟨.fin (5/2), true, 1, some 1⟩ ∧
    ¬ ((1 : ℚ) < 1) := by
  constructor
  · with_unfolding_all decide
  · norm_num

/-- C7: for a visible entity the billboard path returns "not drawn" exactly
when the angle difference (normalized by the two while-loops) exceeds half
the field of view or the occlusion raycast hits closer than the entity's
distance minus the caller's epsilon; otherwise it is drawn with
screenX = screenW/2 + (angleDiff / (fov/2)) * (screenW/2). -/
theorem c7_billboard (nfuel rfuel : ℕ) (w h : ℤ) (m : List (List ℤ))
    (playerX playerY playerAngle fov screenW screenH : ℚ)
    (entAngle entDist entW entH c s eps : ℚ) (ray : RayHit)
    (hray : castRayFuel rfuel w h m playerX playerY c s = some ray) :
    (renderBillboard nfuel rfuel w h m playerX playerY playerAngle fov screenW
        screenH true entAngle entDist entW entH c s eps = .notDrawn ↔
      (fov / 2 < |normalizeToPi nfuel (entAngle - playerAngle)| ∨
        ray.distance.lt (.fin (entDist - eps)) = true)) ∧
    (∀ p, renderBillboard nfuel rfuel w h m playerX playerY playerAngle fov
        screenW screenH true entAngle entDist entW entH c s eps = .drawn p →
      p.screenX = screenW / 2 +
        (normalizeToPi nfuel (entAngle - playerAngle) / (fov / 2)) *
          (screenW / 2)) := by
  unfold renderBillboard
  rw [hray]
  simp only [Bool.not_true, Bool.false_eq_true, if_false]
  by_cases hfov : fov / 2 < |normalizeToPi nfuel (entAngle - playerAngle)|
  · simp [hfov]
  · rw [if_neg hfov]
    cases hocc : ray.distance.lt (.fin (entDist - eps))
    · rw [if_neg (by simp [hocc])]
      constructor
      · simp [hocc, hfov]
      · intro p hp
        injection hp with hp
        subst hp
        rfl
    · rw [if_pos (by simp [hocc])]
      simp [hocc]

/-- Witness for C7: a concrete entity five units east of the viewer in the
ring map (in view, unoccluded at epsilon 0.1). -/
theorem c7_billboard_witness :
    (renderBillboard 10 100 10 10 ring10 (3/2) (3/2) 0 1 100 100 true 0 5 1 1 1
        0 (1/10) = .notDrawn ↔
      (1 / 2 < |normalizeToPi 10 (0 - 0)| ∨
        (XRat.fin (15/2)).lt (.fin (5 - 1/10)) = true)) ∧
    (∀ p, renderBillboard 10 100 10 10 ring10 (3/2) (3/2) 0 1 100 100 true 0 5 1
        1 1 0 (1/10) = .drawn p →
      p.screenX = 100 / 2 + (normalizeToPi 10 (0 - 0) / (1 / 2)) * (100 / 2)) :=
  c7_billboard 10 100 10 10 ring10 (3/2) (3/2) 0 1 100 100 0 5 1 1 1 0 (1/10)
    ⟨.fin (15/2), true, 1, some (1/2)⟩ (by with_unfolding_all decide)

/-- C8: out-of-bounds coordinates are treated as solid wall everywhere: the
spec-side total lookup returns WALL, canMoveTo rejects any out-of-bounds
target tile, and a DDA advance that steps out of bounds terminates the ray
with the max-distance sentinel 50 and the WALL default code 1 (for either
axis), with no out-of-range indexing anywhere (all lookups are total). -/
theorem c8_oob_is_wall (w h : ℤ) (m : List (List ℤ)) :
    (∀ x y : ℤ, (x < 0 ∨ y < 0 ∨ w ≤ x ∨ h ≤ y) → cellAt w h m x y = 1) ∧
    (∀ (monsters : List (Bool × ℚ × ℚ)) (nx ny : ℚ),
      (⌊nx⌋ < 0 ∨ ⌊ny⌋ < 0 ∨ (((m.headD []).length : ℕ) : ℤ) ≤ ⌊nx⌋ ∨
        ((m.length : ℕ) : ℤ) ≤ ⌊ny⌋) →
      canMoveTo m monsters nx ny = false) ∧
    (∀ (stepX stepY : ℤ) (dX dY : XRat) (fuel : ℕ) (mapX mapY : ℤ)
        (sdX sdY : XRat), sdX.lt sdY = true →
      (mapX + stepX < 0 ∨ mapY < 0 ∨ w ≤ mapX + stepX ∨ h ≤ mapY) →
      ddaLoop w h m stepX stepY dX dY (fuel + 1) mapX mapY sdX sdY =
        some ⟨.fin 50, true, 1⟩) ∧
    (∀ (stepX stepY : ℤ) (dX dY : XRat) (fuel : ℕ) (mapX mapY : ℤ)
        (sdX sdY : XRat), sdX.lt sdY = false →
      (mapX < 0 ∨ mapY + stepY < 0 ∨ w ≤ mapX ∨ h ≤ mapY + stepY) →
      ddaLoop w h m stepX stepY dX dY (fuel + 1) mapX mapY sdX sdY =
        some ⟨.fin 50, false, 1⟩) := by
  refine ⟨?_, ?_, ?_, ?_⟩
  · intro x y hx
    simp [cellAt, hx]
  · intro monsters nx ny hx
    simp only [canMoveTo]
    rw [if_pos hx]
  · intro stepX stepY dX dY fuel mapX mapY sdX sdY hlt hoob
    simp [ddaLoop, hlt, hoob]
  · intro stepX stepY dX dY fuel mapX mapY sdX sdY hlt hoob
    simp [ddaLoop, hlt, hoob]

/-- Witness for C8 at concrete out-of-bounds inputs on the ring map. -/
theorem c8_oob_is_wall_witness :
    cellAt 10 10 ring10 (-1) 0 = 1 ∧
    canMoveTo ring10 [] (-1/2) (1/2) = false ∧
    ddaLoop 10 10 ring10 1 1 (.fin 1) (.fin 1) (0 + 1) 10 5 (.fin 1) (.fin 2) =
      some ⟨.fin 50, true, 1⟩ ∧
    ddaLoop 10 10 ring10 1 1 (.fin 1) (.fin 1) (0 + 1) 5 10 (.fin 2) (.fin 1) =
      some ⟨.fin 50, false, 1⟩ :=
  ⟨(c8_oob_is_wall 10 10 ring10).1 (-1) 0 (by with_unfolding_all decide),
   (c8_oob_is_wall 10 10 ring10).2.1 [] (-1/2) (1/2)
     (by with_unfolding_all decide),
   (c8_oob_is_wall 10 10 ring10).2.2.1 1 1 (.fin 1) (.fin 1) 0 10 5 (.fin 1)
     (.fin 2) (by with_unfolding_all decide) (by with_unfolding_all decide),
   (c8_oob_is_wall 10 10 ring10).2.2.2 1 1 (.fin 1) (.fin 1) 0 5 10 (.fin 2)
     (.fin 1) (by with_unfolding_all decide) (by with_unfolding_all decide)⟩

end Beholder
